import Mathlib

/-!
Verification of the astradb synchronization layer (bitxenia/astradb).

The development shallowly embeds the TypeScript sources:
  * `database.ts`   — the EventLog wrapper over an orbitdb log: create/open,
    sync-on-open with a polling wait, append, full scan, update fan-out;
  * `keyRepository.ts` — the key index, the per-key value logs, the local key
    set and the key → ValueLog map, mutation serialized by a mutex;
  * `connectionManager.ts` — the connect-to-provider dialing policy.

Node-level state is passed explicitly; the external orbitdb store is a list of
named append-only logs; fallible store calls are `Except` values.  All
definitions are executable.
-/

namespace AstraDb

/-- Errors surfaced by the database layer.  `syncTimeout` is the
`SyncTimeoutError` of database.ts; `keyNotFound` the `Key ${key} does not
exist` error of keyRepository.ts; `noProvidersFound` the fatal init error of
keyRepository.ts; `store` stands for an arbitrary error coming out of the
external orbitdb store. -/
inductive DbError where
  | syncTimeout
  | keyNotFound (key : String)
  | noProvidersFound
  | store (msg : String)
deriving DecidableEq, Repr

/-- The message text each error carries in the source. -/
def errMessage : DbError → String
  | .syncTimeout => "Timeout waiting for condition"
  | .keyNotFound k => "Key " ++ k ++ " does not exist"
  | .noProvidersFound => "No providers found for the key repository database"
  | .store m => m

/-! ## The sync wait (database.ts `waitFor` / `syncDb` / `initExisting`)

`waitFor` polls every `pollInterval` ms: at each tick it first tests the
condition (`synced === true`, flipped by the "join" event), then adds
`pollInterval` to the elapsed time and rejects with `SyncTimeoutError` once
`elapsedTime >= timeout`.  The join event is modelled by the tick index at
which the flag becomes observable (`none` = no provider ever joins).  The
timeout is an `Option Nat` because keyRepository.ts invokes `initExisting()`
with no argument, so inside `waitFor` the JavaScript `timeout` is `undefined`
and `elapsedTime >= undefined` is never true. -/

inductive WaitOutcome where
  | pending
  | resolved
  | rejected
deriving DecidableEq, Repr

/-- Whether the `synced` flag is observable at poll tick `t`. -/
def joinObserved (joinTick : Option Nat) (t : Nat) : Bool :=
  match joinTick with
  | some j => decide (j ≤ t)
  | none => false

/-- The `elapsedTime >= timeout` test at poll tick `t` (elapsed = pollInterval * t).
With an `undefined` timeout the JavaScript comparison is always false. -/
def timeoutElapsed (msTimeout : Option Nat) (pollInterval t : Nat) : Bool :=
  match msTimeout with
  | some limit => decide (limit ≤ pollInterval * t)
  | none => false

/-- State of the `waitFor` promise after `n` poll ticks.  Each tick checks the
condition first and only then the timeout; a settled promise never changes. -/
def waitStatus (joinTick msTimeout : Option Nat) (pollInterval : Nat) : Nat → WaitOutcome
  | 0 => .pending
  | n + 1 =>
    match waitStatus joinTick msTimeout pollInterval n with
    | .pending =>
        if joinObserved joinTick (n + 1) then .resolved
        else if timeoutElapsed msTimeout pollInterval (n + 1) then .rejected
        else .pending
    | s => s

/-- database.ts polls every 100 ms. -/
def syncPollInterval : Nat := 100

/-- The first poll tick at which the timeout test can fire:
the least `t ≥ 1` with `pollInterval * t ≥ msTimeout`. -/
def firstTimeoutTick (msTimeout : Nat) : Nat :=
  max 1 ((msTimeout + syncPollInterval - 1) / syncPollInterval)

/-- Overall outcome of `waitFor` when a definite `msTimeout` is supplied: the
loop has settled by `firstTimeoutTick`; it resolved iff the join flag was
observed first, otherwise it rejected with `SyncTimeoutError`. -/
def waitForResult (joinTick : Option Nat) (msTimeout : Nat) : Except DbError Unit :=
  if waitStatus joinTick (some msTimeout) syncPollInterval (firstTimeoutTick msTimeout)
      = .resolved then .ok () else .error .syncTimeout

/-- database.ts `syncDb`: runs the wait and catches exactly the
`SyncTimeoutError`, turning it into `false`; any other error is re-thrown. -/
def syncDb (joinTick : Option Nat) (msTimeout : Nat) : Except DbError Bool :=
  match waitForResult joinTick msTimeout with
  | .ok _ => .ok true
  | .error e => if e = .syncTimeout then .ok false else .error e

/-- database.ts `initExisting(msTimeout)`: createDatabase, then the sync wait,
then setupDbEvents and updateDatabase; returns the sync flag.  The results of
the two store interactions (`createDatabase`, `updateDatabase`) are supplied
as parameters; a store error at either point aborts the whole call. -/
def initExisting (createResult : Except DbError Unit) (joinTick : Option Nat)
    (msTimeout : Nat) (updateResult : Except DbError Unit) : Except DbError Bool :=
  match createResult with
  | .error e => .error e
  | .ok _ =>
    match syncDb joinTick msTimeout with
    | .error e => .error e
    | .ok synced =>
      match updateResult with
      | .error e => .error e
      | .ok _ => .ok synced

/-- keyRepository.ts `init`: a non-collaborator, non-offline node must open
the existing KeyIndexLog and see it sync, else init throws the
"No providers found" error; collaborators (or offline mode) create instead. -/
def keyRepositoryInit (isCollaborator offlineMode : Bool)
    (initExistingResult : Except DbError Bool) : Except DbError Unit :=
  if !isCollaborator && !offlineMode then
    match initExistingResult with
    | .error e => .error e
    | .ok true => .ok ()
    | .ok false => .error .noProvidersFound
  else .ok ()

/-- The wait actually performed during a Reader's init: keyRepository.ts line
41 calls `this.keyDb.initExisting()` with no argument, so `msTimeout` is
`undefined` inside `waitFor`.  `joinTick` is the provider-join behaviour. -/
def readerInitWait (joinTick : Option Nat) (n : Nat) : WaitOutcome :=
  waitStatus joinTick none syncPollInterval n

/-! ## The key repository (keyRepository.ts + database.ts)

One node's `KeyRepository` together with the external orbitdb store.  A log
entry is a pair (content hash, value); the store maps log names to entry
sequences in local append/merge order (`all()` returns them oldest→newest,
`iterator()` newest→oldest).  `openCalls` records every `orbitdb.open`
invocation and `events` every `this.events.emit(topic, value)`, so the
replication and fan-out behaviour is observable in the state.

The mutex serializes `add`/`get`/`getAllKeys`; the un-awaited `onUpdate`
callback fired by `Database.newEntryAdded` queues `newKeyAdded` behind the
mutex, so in this sequential model each public operation runs the callbacks
it produced right after its critical section.  `syncDb` mutates nothing (its
whole effect is waiting and a boolean that the `getValueDb` call site
discards), so the open-with-sync path performs the same state transition as
the create path; its timing is modelled separately by `waitStatus` above. -/

/-- A log entry of the external store: (content hash, opaque value). -/
abbrev Entry := String × String

/-- The external orbitdb store: named append-only logs. -/
abbrev StoreLogs := List (String × List Entry)

def lookupLog (logs : StoreLogs) (name : String) : Option (List Entry) :=
  match logs with
  | [] => none
  | p :: rest => if p.1 = name then some p.2 else lookupLog rest name

/-- orbitdb.open creates the (locally empty) log when it does not exist yet
and leaves an existing log untouched. -/
def ensureLog (logs : StoreLogs) (name : String) : StoreLogs :=
  match logs with
  | [] => [(name, [])]
  | p :: rest => if p.1 = name then p :: rest else p :: ensureLog rest name

/-- Append one entry at the end of the named log. -/
def appendLog (logs : StoreLogs) (name : String) (e : Entry) : StoreLogs :=
  match logs with
  | [] => [(name, [e])]
  | p :: rest => if p.1 = name then (p.1, p.2 ++ [e]) :: rest else p :: appendLog rest name e

/-- Number of entries currently in the named log. -/
def logLen (logs : StoreLogs) (name : String) : Nat :=
  ((lookupLog logs name).getD []).length

/-- Deterministic stand-in for the content hash a local append returns. -/
def mkHash (name : String) (idx : Nat) : String :=
  name ++ "#" ++ toString idx

/-- JavaScript `Set.add`: no-op when present, else appended (insertion order). -/
def setAdd (l : List String) (k : String) : List String :=
  if k ∈ l then l else l ++ [k]

/-- The `Database` wrapper of database.ts: the name it was opened under, the
`entriesSeen` hash set, and whether an `onUpdate` callback was supplied (the
key repository passes `newKeyAdded` only for the KeyIndexLog). -/
structure DatabaseM where
  dbName : String
  entriesSeen : List String
  hasOnUpdate : Bool
deriving DecidableEq, Repr

/-- One node's `KeyRepository` state plus the observable store/trace state. -/
structure RepoState where
  dbName : String
  isCollaborator : Bool
  keys : List String
  keyDbs : List (String × DatabaseM)
  keyDb : DatabaseM
  logs : StoreLogs
  events : List (String × String)
  openCalls : List String
deriving DecidableEq, Repr

/-- JavaScript `Map.get`. -/
def mapGet (m : List (String × DatabaseM)) (k : String) : Option DatabaseM :=
  match m with
  | [] => none
  | p :: rest => if p.1 = k then some p.2 else mapGet rest k

/-- JavaScript `Map.set`: replaces in place, else appends. -/
def mapSet (m : List (String × DatabaseM)) (k : String) (v : DatabaseM) :
    List (String × DatabaseM) :=
  match m with
  | [] => [(k, v)]
  | p :: rest => if p.1 = k then (k, v) :: rest else p :: mapSet rest k v

/-- Naming protocol of keyRepository.ts: a key's ValueLog is
`{dbName}::{key}`. -/
def valueLogName (dbName key : String) : String :=
  dbName ++ "::" ++ key

/-- `Database.newEntryAdded(hash, value)`: record the hash as seen, emit the
event on the topic `this.dbName`, and (when present) fire the un-awaited
`onUpdate` callback — returned as a pending value for the caller to run
after its critical section. -/
def newEntryAddedM (db : DatabaseM) (h v : String) :
    DatabaseM × (String × String) × List String :=
  (⟨db.dbName, setAdd db.entriesSeen h, db.hasOnUpdate⟩,
   (db.dbName, v),
   if db.hasOnUpdate then [v] else [])

/-- Body of `Database.updateDatabase`: walk the given entries, skip the ones
already in `entriesSeen`, and run `newEntryAdded` on the rest.  Returns the
updated wrapper, the emitted events, and the pending `onUpdate` values. -/
def processEntries (db : DatabaseM) :
    List Entry → DatabaseM × List (String × String) × List String
  | [] => (db, [], [])
  | e :: rest =>
    if e.1 ∈ db.entriesSeen then processEntries db rest
    else
      let n := newEntryAddedM db e.1 e.2
      let r := processEntries n.1 rest
      (r.1, n.2.1 :: r.2.1, n.2.2 ++ r.2.2)

/-- `Database.updateDatabase`: a full scan over `openDb.iterator()`, which
yields entries newest→oldest. -/
def updateDatabaseM (db : DatabaseM) (entries : List Entry) :
    DatabaseM × List (String × String) × List String :=
  processEntries db entries.reverse

/-- `Database.createDatabase` + `setupDbEvents` + `updateDatabase` (the state
effect of `initNew`, and of `initExisting` minus the stateless sync wait):
records the `orbitdb.open` call, materializes the log, and runs one scan with
a fresh `entriesSeen`. -/
def openDatabaseM (st : RepoState) (name : String) (withOnUpdate : Bool) :
    DatabaseM × RepoState × List String :=
  let logs := ensureLog st.logs name
  let entries := (lookupLog logs name).getD []
  let r := updateDatabaseM ⟨name, [], withOnUpdate⟩ entries
  (r.1,
   { st with
      logs := logs
      openCalls := st.openCalls ++ [name]
      events := st.events ++ r.2.1 },
   r.2.2)

/-- `KeyRepository.newKeyAdded(key)` (keyRepository.ts lines 91–107): add the
key to the local set and, only for Collaborators, create/open that key's
ValueLog anew and store it in the key → ValueLog map.  Note the source has no
already-known guard before the Collaborator branch. -/
def newKeyAdded (st : RepoState) (key : String) : RepoState :=
  let st1 := { st with keys := setAdd st.keys key }
  if st.isCollaborator then
    let r := openDatabaseM st1 (valueLogName st.dbName key) false
    { r.2.1 with keyDbs := mapSet r.2.1.keyDbs key r.1 }
  else st1

/-- Run the `newKeyAdded` callbacks queued behind the mutex, in order. -/
def runPending (st : RepoState) : List String → RepoState
  | [] => st
  | k :: ks => runPending (newKeyAdded st k) ks

/-- `KeyRepository.getValueDb(key, existing)` (lines 109–135): reuse the
retained ValueLog if present, else open `{dbName}::{key}` and retain it.
`existing` selects `initExisting` over `initNew` in the source; the sync wait
it adds has no state effect and its boolean result is discarded there. -/
def getValueDb (st : RepoState) (key : String) (existing : Bool) :
    DatabaseM × RepoState :=
  match mapGet st.keyDbs key with
  | some db => (db, st)
  | none =>
    let r := openDatabaseM st (valueLogName st.dbName key) false
    (r.1, { r.2.1 with keyDbs := mapSet r.2.1.keyDbs key r.1 })

/-- `KeyRepository.add(key, value)` (lines 54–68) with the outcomes of the two
awaited store appends supplied by the environment: `indexAppend` is the result
of `this.keyDb.add(key)` (performed only when the key is unknown) and
`valueAppend` the result of `valueDb.openDb.add(value)`.  An `.error` aborts
the rest of the `runExclusive` body and propagates to the caller; callbacks
already queued by a completed `keyDb.add` still run afterwards.  Note the
source inserts the key into `this.keys` before awaiting the index append. -/
def addF (st : RepoState) (key value : String)
    (indexAppend valueAppend : Except DbError Unit) :
    Except DbError Unit × RepoState :=
  if key ∈ st.keys then
    let r := getValueDb st key false
    match valueAppend with
    | .error e => (.error e, r.2)
    | .ok _ =>
      let h := mkHash r.1.dbName (logLen r.2.logs r.1.dbName)
      (.ok (), { r.2 with logs := appendLog r.2.logs r.1.dbName (h, value) })
  else
    let st1 := { st with keys := st.keys ++ [key] }
    match indexAppend with
    | .error e => (.error e, st1)
    | .ok _ =>
      let h := mkHash st1.dbName (logLen st1.logs st1.dbName)
      let logs1 := appendLog st1.logs st1.dbName (h, key)
      let n := newEntryAddedM st1.keyDb h key
      let st2 := { st1 with logs := logs1, keyDb := n.1, events := st1.events ++ [n.2.1] }
      let r := getValueDb st2 key false
      match valueAppend with
      | .error e => (.error e, runPending r.2 n.2.2)
      | .ok _ =>
        let h2 := mkHash r.1.dbName (logLen r.2.logs r.1.dbName)
        (.ok (), runPending { r.2 with logs := appendLog r.2.logs r.1.dbName (h2, value) } n.2.2)

/-- `KeyRepository.add` when both store appends succeed. -/
def add (st : RepoState) (key value : String) : RepoState :=
  (addF st key value (.ok ()) (.ok ())).2

/-- `KeyRepository.get(key)` (lines 70–82): throw `Key ${key} does not exist`
when the key is not in the local set — before any ValueLog is resolved —
else resolve the ValueLog (with sync semantics when not yet retained) and
return `getAll()`, the values of the log oldest→newest. -/
def get (st : RepoState) (key : String) :
    Except DbError (List String) × RepoState :=
  if key ∈ st.keys then
    let r := getValueDb st key true
    (.ok (((lookupLog r.2.logs r.1.dbName).getD []).map Prod.snd), r.2)
  else
    (.error (.keyNotFound key), st)

/-- `KeyRepository.getAllKeys()` (lines 84–89): `Array.from(this.keys)`. -/
def getAllKeys (st : RepoState) : List String :=
  st.keys

/-- One reconciliation pass / KeyIndexLog "update" delivery: `updateDatabase`
on the KeyIndexLog followed by the queued `newKeyAdded` callbacks. -/
def scanKeyIndex (st : RepoState) : RepoState :=
  let entries := (lookupLog st.logs st.dbName).getD []
  let r := updateDatabaseM st.keyDb entries
  runPending { st with keyDb := r.1, events := st.events ++ r.2.1 } r.2.2

/-- A remote entry merged into the KeyIndexLog, followed by the update
delivery on its subscription. -/
def indexMerge (st : RepoState) (h v : String) : RepoState :=
  scanKeyIndex { st with logs := appendLog st.logs st.dbName (h, v) }

/-- A remote entry merged into `key`'s ValueLog.  The merge can only reach
this node when it holds that log open (it is in `keyDbs`); the registered
"update" handler then runs `updateDatabase`, emitting the per-key events. -/
def valueMerge (st : RepoState) (key h v : String) : RepoState :=
  match mapGet st.keyDbs key with
  | none => st
  | some db =>
    let logs := appendLog st.logs db.dbName (h, v)
    let r := updateDatabaseM db ((lookupLog logs db.dbName).getD [])
    { st with
        logs := logs
        keyDbs := mapSet st.keyDbs key r.1
        events := st.events ++ r.2.1 }

/-- The operations a node's repository state is driven by: the public calls,
the internal `newKeyAdded`, the reconciliation scan, and remote merges. -/
inductive Op where
  | add (key value : String)
  | get (key : String)
  | getAllKeys
  | newKeyAdded (key : String)
  | scan
  | indexMerge (h v : String)
  | valueMerge (key h v : String)
deriving DecidableEq, Repr

def applyOp (st : RepoState) : Op → RepoState
  | .add k v => add st k v
  | .get k => (get st k).2
  | .getAllKeys => st
  | .newKeyAdded k => newKeyAdded st k
  | .scan => scanKeyIndex st
  | .indexMerge h v => indexMerge st h v
  | .valueMerge k h v => valueMerge st k h v

def runOps (st : RepoState) : List Op → RepoState
  | [] => st
  | op :: rest => runOps (applyOp st op) rest

/-- State right after `KeyRepository.init` on a fresh store: the KeyIndexLog
(named `dbName`) has been opened and is empty; no keys are known. -/
def initState (dbName : String) (isCollaborator : Bool) : RepoState :=
  { dbName := dbName
    isCollaborator := isCollaborator
    keys := []
    keyDbs := []
    keyDb := ⟨dbName, [], true⟩
    logs := [(dbName, [])]
    events := []
    openCalls := [dbName] }

/-- Whether `Op.get key` occurs in a trace (the key was fetched via `get`). -/
def fetchedViaGet (ops : List Op) (key : String) : Prop :=
  Op.get key ∈ ops

instance (ops : List Op) (key : String) : Decidable (fetchedViaGet ops key) :=
  inferInstanceAs (Decidable (Op.get key ∈ ops))

/-- The values of `key`'s ValueLog in local order — what `get` returns. -/
def valuesOf (st : RepoState) (key : String) : List String :=
  ((lookupLog st.logs (valueLogName st.dbName key)).getD []).map Prod.snd

/-- The repository state invariants: the local key set has no duplicates, and
every key retained in the key → ValueLog map is in the local key set and maps
to a wrapper opened under the `{dbName}::{key}` name. -/
def Inv (st : RepoState) : Prop :=
  st.keys.Nodup ∧
  ∀ p ∈ st.keyDbs, p.1 ∈ st.keys ∧ p.2.dbName = valueLogName st.dbName p.1

/-! ## The connection manager (connectionManager.ts) -/

namespace ConnectionManager

/-- PeerID of the trustless-gateway.link gateway, skipped by the source. -/
def gatewayPeer1 : String := "bagqbeaavnb2hi4dthixs6ndfozsxe3dbnzsc42lpf4"

/-- PeerID of the 4everland.io gateway, skipped by the source. -/
def gatewayPeer2 : String := "bagqbeaa7nb2hi4dthixs65dsovzxi3dfonzs2z3borsxoylzfzwgs3tlf4"

/-- Which branch of `connectToProvider` fires. -/
inductive DialAction where
  | skippedInvalid
  | skippedGateway
  | skippedSelf
  | skippedConnected
  | dialed
deriving DecidableEq, Repr

/-- `ConnectionManager.connectToProvider` (connectionManager.ts lines
160–204): reject non-PeerId values, skip the two known gateway peers, skip
our own peer identity, skip a peer we already hold at least one connection
to, and only then issue the asynchronous dial.  `existingConnections` is
`libp2p.getConnections(providerId).length`. -/
def connectToProvider (isValidPeerId : Bool) (providerId selfPeerId : String)
    (existingConnections : Nat) : DialAction :=
  if !isValidPeerId then .skippedInvalid
  else if providerId = gatewayPeer1 then .skippedGateway
  else if providerId = gatewayPeer2 then .skippedGateway
  else if providerId = selfPeerId then .skippedSelf
  else if existingConnections > 0 then .skippedConnected
  else .dialed

end ConnectionManager

/-! ### Helper lemmas about the wait loop -/

theorem waitStatus_succ_of_ne_pending {j t : Option Nat} {p n : Nat}
    (h : waitStatus j t p n ≠ .pending) :
    waitStatus j t p (n + 1) = waitStatus j t p n := by
  cases hs : waitStatus j t p n with
  | pending => exact absurd hs h
  | resolved => simp [waitStatus, hs]
  | rejected => simp [waitStatus, hs]

theorem waitStatus_resolved_mono {j t : Option Nat} {p n : Nat}
    (h : waitStatus j t p n = .resolved) :
    ∀ m, n ≤ m → waitStatus j t p m = .resolved := by
  intro m hm
  induction m with
  | zero =>
    have : n = 0 := Nat.le_zero.mp hm
    simpa [this] using h
  | succ k ih =>
    rcases Nat.lt_or_ge n (k + 1) with hlt | hge
    · have hk : n ≤ k := Nat.lt_succ_iff.mp hlt
      have hres := ih hk
      have : waitStatus j t p k ≠ .pending := by simp [hres]
      rw [waitStatus_succ_of_ne_pending this, hres]
    · have : n = k + 1 := Nat.le_antisymm hm hge
      simpa [this] using h

theorem waitStatus_pending_of_lt {j : Nat} {t : Option Nat} {p : Nat} (n : Nat)
    (hj : n < j) (ht : ∀ u, 1 ≤ u → u ≤ n → timeoutElapsed t p u = false) :
    waitStatus (some j) t p n = .pending := by
  induction n with
  | zero => simp [waitStatus]
  | succ k ih =>
    have hk : k < j := Nat.lt_of_succ_lt hj
    have hpend := ih hk (fun u h1 hu => ht u h1 (Nat.le_succ_of_le hu))
    have hjoin : joinObserved (some j) (k + 1) = false := by
      simp [joinObserved]
      omega
    have helapsed := ht (k + 1) (Nat.succ_le_succ (Nat.zero_le k)) (Nat.le_refl _)
    simp [waitStatus, hpend, hjoin, helapsed]

theorem waitStatus_never_resolved_of_no_join {t : Option Nat} {p : Nat} :
    ∀ n, waitStatus none t p n ≠ .resolved := by
  intro n
  induction n with
  | zero => simp [waitStatus]
  | succ k ih =>
    cases hs : waitStatus none t p k with
    | pending =>
      simp [waitStatus, hs, joinObserved]
      split <;> simp
    | resolved => exact absurd hs ih
    | rejected => simp [waitStatus, hs]

/-- Before `firstTimeoutTick` the timeout test cannot fire. -/
theorem timeoutElapsed_false_of_lt_firstTick {T u : Nat}
    (hu : 1 ≤ u) (hlt : u < firstTimeoutTick T) :
    timeoutElapsed (some T) syncPollInterval u = false := by
  simp [timeoutElapsed, syncPollInterval]
  have hmax : u < max 1 ((T + 100 - 1) / 100) := by
    simpa [firstTimeoutTick, syncPollInterval] using hlt
  have hq : u < (T + 100 - 1) / 100 := by omega
  have hdiv : (T + 100 - 1) / 100 * 100 ≤ T + 100 - 1 := Nat.div_mul_le_self _ _
  have : (u + 1) * 100 ≤ (T + 100 - 1) / 100 * 100 :=
    Nat.mul_le_mul_right _ (Nat.succ_le_of_lt hq)
  omega

/-- If the join flag is observable by `firstTimeoutTick`, the wait resolves. -/
theorem waitStatus_resolved_of_join_by_deadline {j T : Nat}
    (hj : j ≤ firstTimeoutTick T) :
    waitStatus (some j) (some T) syncPollInterval (firstTimeoutTick T) = .resolved := by
  have hft1 : 1 ≤ firstTimeoutTick T := le_max_left _ _
  -- the first tick at which the condition is observable
  have key : waitStatus (some j) (some T) syncPollInterval (max j 1) = .resolved := by
    have hpend : waitStatus (some j) (some T) syncPollInterval (max j 1 - 1) = .pending := by
      rcases Nat.eq_zero_or_pos j with hj0 | hjpos
      · subst hj0
        simp [waitStatus]
      · apply waitStatus_pending_of_lt
        · omega
        · intro u h1 hu
          apply timeoutElapsed_false_of_lt_firstTick h1
          omega
    have hstep : max j 1 - 1 + 1 = max j 1 := by omega
    have hjoin : joinObserved (some j) (max j 1) = true := by
      simp [joinObserved]
    calc waitStatus (some j) (some T) syncPollInterval (max j 1)
        = waitStatus (some j) (some T) syncPollInterval (max j 1 - 1 + 1) := by rw [hstep]
      _ = .resolved := by simp [waitStatus, hpend, hjoin]
  exact waitStatus_resolved_mono key _ (by omega)

/-- C2: keyRepository.ts declares that a Reader's init must fail with the
"No providers found" error within the sync timeout when no provider joins.
The error identity is right (second conjunct: `initExisting` reporting
`false` makes `init` throw exactly `noProvidersFound`), but the timing is
not: keyRepository.ts line 41 invokes `initExisting()` without the required
`msTimeout` argument, so `waitFor` compares `elapsedTime >= undefined`,
which is never true — with no provider join the poll loop stays pending at
every tick `n` and initialization blocks indefinitely instead of failing
within the configured timeout (first conjunct). -/
theorem reader_init_no_providers_never_times_out :
    (∀ n, readerInitWait none n = .pending) ∧
    keyRepositoryInit false false (.ok false) = .error .noProvidersFound := by
  constructor
  · intro n
    induction n with
    | zero => rfl
    | succ k ih =>
      simp only [readerInitWait] at ih ⊢
      simp [waitStatus, ih, joinObserved, timeoutElapsed]
  · rfl

/-- C6: `initExisting` distinguishes sync timeout from generic failure.  If
the join event is observed by the first tick at which the timeout test can
fire, it returns `true`; if no join is ever observed, the wait ends in the
`SyncTimeoutError`, which `syncDb` catches and converts to `false`; and any
other error from the underlying store propagates to the caller unchanged. -/
theorem initExisting_distinguishes_sync_timeout (j T : Nat) (jt : Option Nat)
    (e : DbError) (ur : Except DbError Unit) :
    (j ≤ firstTimeoutTick T →
      initExisting (.ok ()) (some j) T (.ok ()) = .ok true) ∧
    initExisting (.ok ()) none T (.ok ()) = .ok false ∧
    initExisting (.error e) jt T ur = .error e := by
  refine ⟨?_, ?_, rfl⟩
  · intro hj
    have hres := waitStatus_resolved_of_join_by_deadline (T := T) hj
    simp [initExisting, syncDb, waitForResult, hres]
  · have hnr := waitStatus_never_resolved_of_no_join
      (t := some T) (p := syncPollInterval) (firstTimeoutTick T)
    simp [initExisting, syncDb, waitForResult, hnr]

/-- Witness for C6 at concrete inputs: join at tick 1 with a 500 ms budget
syncs, no join ends as `ok false`, and a store error is passed through. -/
theorem initExisting_distinguishes_sync_timeout_witness :
    initExisting (.ok ()) (some 1) 500 (.ok ()) = .ok true ∧
    initExisting (.ok ()) none 500 (.ok ()) = .ok false ∧
    initExisting (.error (.store "boom")) (some 1) 500 (.ok ()) = .error (.store "boom") :=
  ⟨(initExisting_distinguishes_sync_timeout 1 500 (some 1) (.store "boom") (.ok ())).1
      (by decide),
   (initExisting_distinguishes_sync_timeout 1 500 (some 1) (.store "boom") (.ok ())).2.1,
   (initExisting_distinguishes_sync_timeout 1 500 (some 1) (.store "boom") (.ok ())).2.2⟩

/-! ### Helper lemmas: JavaScript Set / Map / store logs -/

theorem setAdd_of_mem {l : List String} {k : String} (h : k ∈ l) : setAdd l k = l := by
  simp [setAdd, h]

theorem mem_setAdd_self (l : List String) (k : String) : k ∈ setAdd l k := by
  by_cases h : k ∈ l <;> simp [setAdd, h]

theorem mem_setAdd_of_mem {l : List String} {a : String} (k : String) (h : a ∈ l) :
    a ∈ setAdd l k := by
  by_cases hk : k ∈ l <;> simp [setAdd, hk, h]

theorem setAdd_nodup {l : List String} {k : String} (h : l.Nodup) : (setAdd l k).Nodup := by
  by_cases hk : k ∈ l
  · simpa [setAdd, hk] using h
  · simp [setAdd, hk, List.nodup_append, h]

theorem mapGet_mem {m : List (String × DatabaseM)} {k : String} {db : DatabaseM}
    (h : mapGet m k = some db) : (k, db) ∈ m := by
  induction m with
  | nil => simp [mapGet] at h
  | cons p rest ih =>
    by_cases hp : p.1 = k
    · simp [mapGet, hp] at h
      have hpk : p = (k, db) := by
        obtain ⟨a, b⟩ := p
        simp_all
      rw [← hpk]
      exact List.mem_cons_self _ _
    · simp [mapGet, hp] at h
      exact List.mem_cons_of_mem _ (ih h)

theorem mapGet_eq_none {m : List (String × DatabaseM)} {k : String}
    (h : ∀ p ∈ m, p.1 ≠ k) : mapGet m k = none := by
  induction m with
  | nil => rfl
  | cons p rest ih =>
    have hp := h p (by simp)
    simp [mapGet, hp]
    exact ih fun q hq => h q (List.mem_cons_of_mem _ hq)

theorem mapSet_forall {m : List (String × DatabaseM)} {k : String} {v : DatabaseM}
    {P : String × DatabaseM → Prop} (hm : ∀ p ∈ m, P p) (hv : P (k, v)) :
    ∀ p ∈ mapSet m k v, P p := by
  induction m with
  | nil => simpa [mapSet] using hv
  | cons q rest ih =>
    intro p hp
    by_cases hq : q.1 = k
    · simp [mapSet, hq] at hp
      rcases hp with hp | hp
      · rw [hp]; exact hv
      · exact hm p (List.mem_cons_of_mem _ hp)
    · simp [mapSet, hq] at hp
      rcases hp with hp | hp
      · rw [hp]; exact hm q (by simp)
      · exact ih (fun r hr => hm r (List.mem_cons_of_mem _ hr)) p hp

theorem lookupLog_ensureLog_getD (logs : StoreLogs) (n m : String) :
    (lookupLog (ensureLog logs n) m).getD [] = (lookupLog logs m).getD [] := by
  induction logs with
  | nil =>
    by_cases hm : n = m <;> simp [ensureLog, lookupLog, hm]
  | cons p rest ih =>
    by_cases hp : p.1 = n
    · simp [ensureLog, hp]
    · simp only [ensureLog, if_neg hp, lookupLog]
      by_cases hm : p.1 = m <;> simp [hm, ih]

theorem lookupLog_appendLog_self (logs : StoreLogs) (n : String) (e : Entry) :
    lookupLog (appendLog logs n e) n = some ((lookupLog logs n).getD [] ++ [e]) := by
  induction logs with
  | nil => simp [appendLog, lookupLog]
  | cons p rest ih =>
    by_cases hp : p.1 = n
    · simp [appendLog, lookupLog, hp]
    · simp [appendLog, lookupLog, hp, ih]

theorem lookupLog_appendLog_ne (logs : StoreLogs) {n m : String} (e : Entry)
    (h : m ≠ n) : lookupLog (appendLog logs n e) m = lookupLog logs m := by
  have hnm : ¬ n = m := fun hc => h hc.symm
  induction logs with
  | nil => simp [appendLog, lookupLog, hnm]
  | cons p rest ih =>
    by_cases hp : p.1 = n
    · simp [appendLog, lookupLog, hp, hnm]
    · simp [appendLog, lookupLog, hp, ih]

theorem valueLogName_ne (d k : String) : valueLogName d k ≠ d := by
  intro h
  have hlen := congrArg String.length h
  simp [valueLogName, String.length_append] at hlen
  have h2 : ("::" : String).length = 2 := rfl
  omega

/-! ### Helper lemmas: the Database wrapper scan -/

theorem processEntries_dbName (db : DatabaseM) (es : List Entry) :
    (processEntries db es).1.dbName = db.dbName := by
  induction es generalizing db with
  | nil => rfl
  | cons e rest ih =>
    by_cases he : e.1 ∈ db.entriesSeen
    · simp [processEntries, he, ih]
    · simp [processEntries, he, newEntryAddedM, ih]

theorem processEntries_all_seen {db : DatabaseM} {es : List Entry}
    (h : ∀ e ∈ es, e.1 ∈ db.entriesSeen) : processEntries db es = (db, [], []) := by
  induction es with
  | nil => rfl
  | cons e rest ih =>
    have he := h e (by simp)
    simp only [processEntries, if_pos he]
    exact ih fun x hx => h x (List.mem_cons_of_mem _ hx)

theorem processEntries_new_head {db : DatabaseM} {h v : String} {old : List Entry}
    (hfresh : h ∉ db.entriesSeen) (hseen : ∀ e ∈ old, e.1 ∈ db.entriesSeen) :
    processEntries db ((h, v) :: old) =
      (⟨db.dbName, setAdd db.entriesSeen h, db.hasOnUpdate⟩,
       [(db.dbName, v)],
       if db.hasOnUpdate then [v] else []) := by
  have hall : processEntries ⟨db.dbName, setAdd db.entriesSeen h, db.hasOnUpdate⟩ old
      = (⟨db.dbName, setAdd db.entriesSeen h, db.hasOnUpdate⟩, [], []) :=
    processEntries_all_seen fun e he => mem_setAdd_of_mem h (hseen e he)
  simp only [processEntries, if_neg hfresh, newEntryAddedM]
  rw [hall]
  simp

/-! ### Helper lemmas: effects of each repository operation -/

theorem openDatabaseM_snd_keys (st : RepoState) (name : String) (b : Bool) :
    (openDatabaseM st name b).2.1.keys = st.keys := rfl

theorem openDatabaseM_snd_keyDbs (st : RepoState) (name : String) (b : Bool) :
    (openDatabaseM st name b).2.1.keyDbs = st.keyDbs := rfl

theorem openDatabaseM_snd_dbName (st : RepoState) (name : String) (b : Bool) :
    (openDatabaseM st name b).2.1.dbName = st.dbName := rfl

theorem openDatabaseM_snd_isCollaborator (st : RepoState) (name : String) (b : Bool) :
    (openDatabaseM st name b).2.1.isCollaborator = st.isCollaborator := rfl

theorem openDatabaseM_snd_logs (st : RepoState) (name : String) (b : Bool) :
    (openDatabaseM st name b).2.1.logs = ensureLog st.logs name := rfl

theorem openDatabaseM_snd_openCalls (st : RepoState) (name : String) (b : Bool) :
    (openDatabaseM st name b).2.1.openCalls = st.openCalls ++ [name] := rfl

theorem openDatabaseM_fst_dbName (st : RepoState) (name : String) (b : Bool) :
    (openDatabaseM st name b).1.dbName = name := by
  simp [openDatabaseM, updateDatabaseM, processEntries_dbName]

theorem newKeyAdded_keys (st : RepoState) (k : String) :
    (newKeyAdded st k).keys = setAdd st.keys k := by
  by_cases hc : st.isCollaborator <;> simp [newKeyAdded, hc, openDatabaseM_snd_keys]

theorem newKeyAdded_dbName (st : RepoState) (k : String) :
    (newKeyAdded st k).dbName = st.dbName := by
  by_cases hc : st.isCollaborator <;> simp [newKeyAdded, hc, openDatabaseM_snd_dbName]

theorem newKeyAdded_isCollaborator (st : RepoState) (k : String) :
    (newKeyAdded st k).isCollaborator = st.isCollaborator := by
  by_cases hc : st.isCollaborator <;>
    simp [newKeyAdded, hc, openDatabaseM_snd_isCollaborator]

theorem newKeyAdded_lookup_getD (st : RepoState) (k m : String) :
    (lookupLog (newKeyAdded st k).logs m).getD [] = (lookupLog st.logs m).getD [] := by
  by_cases hc : st.isCollaborator <;>
    simp [newKeyAdded, hc, openDatabaseM_snd_logs, lookupLog_ensureLog_getD]

theorem newKeyAdded_mem_keys {st : RepoState} {a : String} (k : String)
    (h : a ∈ st.keys) : a ∈ (newKeyAdded st k).keys := by
  rw [newKeyAdded_keys]
  exact mem_setAdd_of_mem k h

theorem runPending_dbName (st : RepoState) (ks : List String) :
    (runPending st ks).dbName = st.dbName := by
  induction ks generalizing st with
  | nil => rfl
  | cons k rest ih => simp [runPending, ih, newKeyAdded_dbName]

theorem runPending_lookup_getD (st : RepoState) (ks : List String) (m : String) :
    (lookupLog (runPending st ks).logs m).getD [] = (lookupLog st.logs m).getD [] := by
  induction ks generalizing st with
  | nil => rfl
  | cons k rest ih => simp [runPending, ih, newKeyAdded_lookup_getD]

theorem runPending_mem_keys {st : RepoState} {a : String} (ks : List String)
    (h : a ∈ st.keys) : a ∈ (runPending st ks).keys := by
  induction ks generalizing st with
  | nil => exact h
  | cons k rest ih => exact ih (newKeyAdded_mem_keys k h)

theorem updateDatabaseM_dbName (db : DatabaseM) (es : List Entry) :
    (updateDatabaseM db es).1.dbName = db.dbName :=
  processEntries_dbName db es.reverse

theorem nodup_append_new {l : List String} {k : String} (hnd : l.Nodup) (hk : k ∉ l) :
    (l ++ [k]).Nodup := by
  simp [List.nodup_append, hnd, hk]

theorem getValueDb_snd_keys (st : RepoState) (k : String) (ex : Bool) :
    (getValueDb st k ex).2.keys = st.keys := by
  cases hm : mapGet st.keyDbs k <;> simp [getValueDb, hm, openDatabaseM_snd_keys]

theorem getValueDb_snd_dbName (st : RepoState) (k : String) (ex : Bool) :
    (getValueDb st k ex).2.dbName = st.dbName := by
  cases hm : mapGet st.keyDbs k <;> simp [getValueDb, hm, openDatabaseM_snd_dbName]

theorem getValueDb_lookup_getD (st : RepoState) (k : String) (ex : Bool) (m : String) :
    (lookupLog (getValueDb st k ex).2.logs m).getD [] = (lookupLog st.logs m).getD [] := by
  cases hm : mapGet st.keyDbs k <;>
    simp [getValueDb, hm, openDatabaseM_snd_logs, lookupLog_ensureLog_getD]

theorem getValueDb_fst_dbName {st : RepoState} (k : String) (ex : Bool)
    (hdbs : ∀ p ∈ st.keyDbs, p.2.dbName = valueLogName st.dbName p.1) :
    (getValueDb st k ex).1.dbName = valueLogName st.dbName k := by
  cases hm : mapGet st.keyDbs k with
  | none => simp [getValueDb, hm, openDatabaseM_fst_dbName]
  | some db =>
    simp only [getValueDb, hm]
    exact hdbs (k, db) (mapGet_mem hm)

/-! ### Invariant preservation -/

theorem inv_of_fields {st st' : RepoState} (hInv : Inv st)
    (hkeys : st'.keys = st.keys) (hdbs : st'.keyDbs = st.keyDbs)
    (hname : st'.dbName = st.dbName) : Inv st' := by
  obtain ⟨h1, h2⟩ := hInv
  refine ⟨hkeys ▸ h1, ?_⟩
  intro p hp
  rw [hdbs] at hp
  rw [hkeys, hname]
  exact h2 p hp

theorem inv_newKeyAdded {st : RepoState} (hInv : Inv st) (k : String) :
    Inv (newKeyAdded st k) := by
  obtain ⟨hnd, hdbs⟩ := hInv
  by_cases hc : st.isCollaborator
  · simp only [newKeyAdded, if_pos hc]
    refine ⟨setAdd_nodup hnd, ?_⟩
    exact mapSet_forall
      (fun p hp => ⟨mem_setAdd_of_mem k (hdbs p hp).1, (hdbs p hp).2⟩)
      ⟨mem_setAdd_self _ _, openDatabaseM_fst_dbName _ _ _⟩
  · simp only [newKeyAdded, if_neg hc]
    exact ⟨setAdd_nodup hnd,
      fun p hp => ⟨mem_setAdd_of_mem k (hdbs p hp).1, (hdbs p hp).2⟩⟩

theorem inv_runPending {st : RepoState} (hInv : Inv st) (ks : List String) :
    Inv (runPending st ks) := by
  induction ks generalizing st with
  | nil => exact hInv
  | cons k rest ih => exact ih (inv_newKeyAdded hInv k)

theorem inv_getValueDb {st : RepoState} (hInv : Inv st) {k : String} (ex : Bool)
    (hk : k ∈ st.keys) : Inv (getValueDb st k ex).2 := by
  obtain ⟨hnd, hdbs⟩ := hInv
  cases hm : mapGet st.keyDbs k with
  | some db => simpa [getValueDb, hm] using ⟨hnd, hdbs⟩
  | none =>
    simp only [getValueDb, hm]
    refine ⟨hnd, ?_⟩
    exact mapSet_forall
      (fun p hp => ⟨(hdbs p hp).1, (hdbs p hp).2⟩)
      ⟨hk, openDatabaseM_fst_dbName _ _ _⟩

theorem inv_add {st : RepoState} (hInv : Inv st) (k v : String) : Inv (add st k v) := by
  by_cases hk : k ∈ st.keys
  · simp only [add, addF, if_pos hk]
    exact inv_getValueDb hInv false hk
  · simp only [add, addF, if_neg hk]
    apply inv_runPending
    refine inv_of_fields (inv_getValueDb ?_ false ?_) rfl rfl rfl
    · have hbase : Inv { st with keys := st.keys ++ [k] } :=
        ⟨nodup_append_new hInv.1 hk,
          fun p hp => ⟨List.mem_append_left _ ((hInv.2 p hp).1), (hInv.2 p hp).2⟩⟩
      exact inv_of_fields hbase rfl rfl rfl
    · simp

theorem inv_get {st : RepoState} (hInv : Inv st) (k : String) : Inv (get st k).2 := by
  by_cases hk : k ∈ st.keys
  · simp only [get, if_pos hk]
    exact inv_getValueDb hInv true hk
  · simp only [get, if_neg hk]
    exact hInv

theorem inv_scanKeyIndex {st : RepoState} (hInv : Inv st) : Inv (scanKeyIndex st) := by
  simp only [scanKeyIndex]
  apply inv_runPending
  exact inv_of_fields hInv rfl rfl rfl

theorem inv_indexMerge {st : RepoState} (hInv : Inv st) (h v : String) :
    Inv (indexMerge st h v) := by
  simp only [indexMerge]
  apply inv_scanKeyIndex
  exact inv_of_fields hInv rfl rfl rfl

theorem inv_valueMerge {st : RepoState} (hInv : Inv st) (k h v : String) :
    Inv (valueMerge st k h v) := by
  obtain ⟨hnd, hdbs⟩ := hInv
  cases hm : mapGet st.keyDbs k with
  | none => simpa [valueMerge, hm] using ⟨hnd, hdbs⟩
  | some db =>
    have hmem := mapGet_mem hm
    simp only [valueMerge, hm]
    refine ⟨hnd, ?_⟩
    refine mapSet_forall (fun p hp => ⟨(hdbs p hp).1, (hdbs p hp).2⟩) ?_
    refine ⟨(hdbs _ hmem).1, ?_⟩
    rw [updateDatabaseM_dbName]
    exact (hdbs _ hmem).2

theorem inv_applyOp {st : RepoState} (hInv : Inv st) (op : Op) :
    Inv (applyOp st op) := by
  cases op with
  | add k v => exact inv_add hInv k v
  | get k => exact inv_get hInv k
  | getAllKeys => exact hInv
  | newKeyAdded k => exact inv_newKeyAdded hInv k
  | scan => exact inv_scanKeyIndex hInv
  | indexMerge h v => exact inv_indexMerge hInv h v
  | valueMerge k h v => exact inv_valueMerge hInv k h v

theorem inv_runOps {st : RepoState} (hInv : Inv st) (ops : List Op) :
    Inv (runOps st ops) := by
  induction ops generalizing st with
  | nil => exact hInv
  | cons op rest ih => exact ih (inv_applyOp hInv op)

theorem inv_initState (d : String) (c : Bool) : Inv (initState d c) := by
  refine ⟨by simp [initState], ?_⟩
  intro p hp
  simp [initState] at hp

/-- C4: in every state reachable from a freshly initialized node by any
sequence of operations — add, get, newKeyAdded, reconciliation scans,
and index/value-log merges delivering arbitrary (possibly duplicated)
entries — `getAllKeys()` returns pairwise distinct keys: the local key set
never contains duplicates even though the underlying log may. -/
theorem getAllKeys_nodup (d : String) (c : Bool) (ops : List Op) :
    (getAllKeys (runOps (initState d c) ops)).Nodup :=
  (inv_runOps (inv_initState d c) ops).1

/-- C9: in every reachable state, every key that has an entry in the
key → ValueLog map (`keyDbs`) is also a member of the local key set
(`keys`). -/
theorem keyDbs_keys_in_key_set (d : String) (c : Bool) (ops : List Op) (k : String)
    (hk : k ∈ (runOps (initState d c) ops).keyDbs.map Prod.fst) :
    k ∈ (runOps (initState d c) ops).keys := by
  rcases List.mem_map.mp hk with ⟨p, hp, hpk⟩
  rw [← hpk]
  exact ((inv_runOps (inv_initState d c) ops).2 p hp).1

/-- Witness for C9: a Collaborator that learns "k" through `newKeyAdded`
retains its ValueLog, and "k" is indeed in the key set. -/
theorem keyDbs_keys_in_key_set_witness :
    "k" ∈ (runOps (initState "db" true) [Op.newKeyAdded "k"]).keyDbs.map Prod.fst ∧
    "k" ∈ (runOps (initState "db" true) [Op.newKeyAdded "k"]).keys :=
  ⟨by decide, keyDbs_keys_in_key_set "db" true [Op.newKeyAdded "k"] "k" (by decide)⟩

/-! ### Tracking the ValueLog contents through add / get (claim C1) -/

theorem add_self_mem_keys (st : RepoState) (k v : String) : k ∈ (add st k v).keys := by
  by_cases hk : k ∈ st.keys
  · simp [add, addF, hk, getValueDb_snd_keys]
  · simp only [add, addF, if_neg hk]
    apply runPending_mem_keys
    simp [getValueDb_snd_keys]

theorem add_mem_keys_mono {st : RepoState} {a : String} (k v : String)
    (h : a ∈ st.keys) : a ∈ (add st k v).keys := by
  by_cases hk : k ∈ st.keys
  · simpa [add, addF, hk, getValueDb_snd_keys] using h
  · simp only [add, addF, if_neg hk]
    apply runPending_mem_keys
    simp [getValueDb_snd_keys, h]

theorem add_valuesOf {st : RepoState} (hInv : Inv st) (k v : String) :
    valuesOf (add st k v) k = valuesOf st k ++ [v] := by
  by_cases hk : k ∈ st.keys
  · cases hm : mapGet st.keyDbs k with
    | some db =>
      have hnamedb : db.dbName = valueLogName st.dbName k := (hInv.2 _ (mapGet_mem hm)).2
      simp [add, addF, hk, valuesOf, getValueDb, hm, hnamedb, lookupLog_appendLog_self]
    | none =>
      simp [add, addF, hk, valuesOf, getValueDb, hm, openDatabaseM_fst_dbName,
        openDatabaseM_snd_dbName, openDatabaseM_snd_logs, lookupLog_appendLog_self,
        lookupLog_ensureLog_getD]
  · have hm : mapGet st.keyDbs k = none :=
      mapGet_eq_none fun p hp hc => hk (hc ▸ (hInv.2 p hp).1)
    have hne : ∀ (logs : StoreLogs) (e : Entry),
        lookupLog (appendLog logs st.dbName e) (valueLogName st.dbName k)
          = lookupLog logs (valueLogName st.dbName k) :=
      fun logs e => lookupLog_appendLog_ne logs e (valueLogName_ne st.dbName k)
    simp [add, addF, hk, valuesOf, getValueDb, hm, runPending_dbName,
      runPending_lookup_getD, openDatabaseM_fst_dbName, openDatabaseM_snd_dbName,
      openDatabaseM_snd_logs, lookupLog_appendLog_self, lookupLog_ensureLog_getD, hne]

theorem get_ok {st : RepoState} (hInv : Inv st) {k : String} (hk : k ∈ st.keys) :
    (get st k).1 = .ok (valuesOf st k) := by
  cases hm : mapGet st.keyDbs k with
  | some db =>
    have hnamedb : db.dbName = valueLogName st.dbName k := (hInv.2 _ (mapGet_mem hm)).2
    simp [get, hk, getValueDb, hm, hnamedb, valuesOf]
  | none =>
    simp [get, hk, getValueDb, hm, valuesOf, openDatabaseM_fst_dbName,
      openDatabaseM_snd_dbName, openDatabaseM_snd_logs, lookupLog_ensureLog_getD]

theorem valuesOf_initState (d : String) (c : Bool) (k : String) :
    valuesOf (initState d c) k = [] := by
  have hne : ¬ d = valueLogName d k := fun h => valueLogName_ne d k h.symm
  simp [valuesOf, initState, lookupLog, hne]

theorem runOps_adds_mem {st : RepoState} {a : String} (k : String) (vs : List String)
    (h : a ∈ st.keys) : a ∈ (runOps st (vs.map (Op.add k))).keys := by
  induction vs generalizing st with
  | nil => exact h
  | cons v rest ih => exact ih (add_mem_keys_mono k v h)

theorem runOps_adds (k : String) (vs : List String) (st : RepoState) (hInv : Inv st) :
    Inv (runOps st (vs.map (Op.add k))) ∧
    valuesOf (runOps st (vs.map (Op.add k))) k = valuesOf st k ++ vs ∧
    (vs ≠ [] → k ∈ (runOps st (vs.map (Op.add k))).keys) := by
  induction vs generalizing st with
  | nil => simpa [runOps] using hInv
  | cons v rest ih =>
    obtain ⟨i1, i2, _⟩ := ih (add st k v) (inv_add hInv k v)
    refine ⟨i1, ?_, fun _ => ?_⟩
    · simp only [List.map_cons, runOps, applyOp]
      rw [i2, add_valuesOf hInv k v]
      simp
    · exact runOps_adds_mem k rest (add_self_mem_keys st k v)

/-- C1: for every key `k` and values `v1..vn` appended on one node via
`add(k, v1)`, …, `add(k, vn)` with no interleaved remote merges, a subsequent
`get(k)` on that node returns exactly `[v1, …, vn]` in that order (so in
particular its last element is `vn`). -/
theorem add_then_get_returns_appended_values (d : String) (c : Bool) (k : String)
    (vs : List String) (hvs : vs ≠ []) :
    (get (runOps (initState d c) (vs.map (Op.add k))) k).1 = .ok vs := by
  obtain ⟨i1, i2, i3⟩ := runOps_adds k vs (initState d c) (inv_initState d c)
  rw [get_ok i1 (i3 hvs), i2, valuesOf_initState]
  simp

/-- Witness for C1 at a concrete input: two appends, then a get. -/
theorem add_then_get_returns_appended_values_witness :
    (get (runOps (initState "db" true) (["v1", "v2"].map (Op.add "k"))) "k").1
      = .ok ["v1", "v2"] :=
  add_then_get_returns_appended_values "db" true "k" ["v1", "v2"] (by decide)

/-! ### Claims C3, C5, C7, C8, C10 -/

/-- C3: `get` on a key absent from the local key set fails immediately with
the KeyNotFound condition naming the missing key, leaving the node state
completely unchanged — in particular no ValueLog is opened or created and
nothing is retried. -/
theorem get_unknown_key_fails_immediately (st : RepoState) (k : String)
    (hk : k ∉ st.keys) :
    get st k = (.error (.keyNotFound k), st) ∧
    errMessage (.keyNotFound k) = "Key " ++ k ++ " does not exist" :=
  ⟨by simp [get, hk], rfl⟩

/-- Witness for C3: a fresh Reader node and an unknown key. -/
theorem get_unknown_key_fails_immediately_witness :
    get (initState "db" false) "missing"
        = (.error (.keyNotFound "missing"), initState "db" false) ∧
    errMessage (.keyNotFound "missing") = "Key missing does not exist" :=
  ⟨(get_unknown_key_fails_immediately (initState "db" false) "missing" (by decide)).1,
   (get_unknown_key_fails_immediately (initState "db" false) "missing" (by decide)).2⟩

/-- C5 counterexample: `newKeyAdded` is not a no-op the second time around.
On a Collaborator that already knows "k", a second `newKeyAdded "k"` issues
another `orbitdb.open` of the ValueLog `db::k` (the openCalls trace grows),
so the already-retained ValueLog is created/opened again — the claim's
"no duplicate replication setup" fails, though the key set is unchanged. -/
theorem newKeyAdded_not_idempotent_cex :
    (newKeyAdded (newKeyAdded (initState "db" true) "k") "k"
        ≠ newKeyAdded (initState "db" true) "k") ∧
    "k" ∈ (newKeyAdded (initState "db" true) "k").keys ∧
    (newKeyAdded (newKeyAdded (initState "db" true) "k") "k").openCalls
        = ["db", "db::k", "db::k"] ∧
    (newKeyAdded (initState "db" true) "k").openCalls = ["db", "db::k"] := by
  decide

/-- C5 amended: `newKeyAdded` is idempotent on the key set — invoking it again
for an already-known key leaves the key set unchanged (no duplicate entry),
and on a non-Collaborator it is a complete no-op; on a Collaborator, however,
each invocation re-creates/re-opens the key's ValueLog (recording another
open of `{dbName}::{key}`) and re-stores the fresh instance in the map. -/
theorem newKeyAdded_keyset_idempotent (st : RepoState) (k : String)
    (hk : k ∈ st.keys) :
    (newKeyAdded st k).keys = st.keys ∧
    (st.isCollaborator = false → newKeyAdded st k = st) ∧
    (st.isCollaborator = true →
      (newKeyAdded st k).openCalls = st.openCalls ++ [valueLogName st.dbName k]) := by
  refine ⟨?_, ?_, ?_⟩
  · rw [newKeyAdded_keys, setAdd_of_mem hk]
  · intro hc
    calc newKeyAdded st k
        = { st with keys := setAdd st.keys k } := by simp [newKeyAdded, hc]
      _ = { st with keys := st.keys } := by rw [setAdd_of_mem hk]
      _ = st := rfl
  · intro hc
    simp [newKeyAdded, hc, openDatabaseM_snd_openCalls]

/-- Witness for C5's amended statement: second invocation on a Collaborator
keeps the key set, and records one more open of the ValueLog. -/
theorem newKeyAdded_keyset_idempotent_witness :
    "k" ∈ (newKeyAdded (initState "db" true) "k").keys ∧
    (newKeyAdded (newKeyAdded (initState "db" true) "k") "k").keys
        = (newKeyAdded (initState "db" true) "k").keys :=
  ⟨by decide,
   (newKeyAdded_keyset_idempotent (newKeyAdded (initState "db" true) "k") "k"
      (by decide)).1⟩

/-- C7 counterexample: a Collaborator that learned "k" only through a
KeyIndexLog merge (no `get` in the trace) still has "k"'s ValueLog open, and
a subsequent remote merge on that ValueLog emits the update event under the
topic `db::k` — so events are not limited to keys previously fetched via
`get`. -/
theorem value_event_without_get_cex :
    ¬ fetchedViaGet [Op.indexMerge "h1" "k", Op.valueMerge "k" "h2" "v"] "k" ∧
    ("db::k", "v") ∈ (runOps (initState "db" true)
        [Op.indexMerge "h1" "k", Op.valueMerge "k" "h2" "v"]).events := by
  decide

/-- C7 amended: update events for a key are delivered under exactly the topic
`{dbName}::{key}` carrying the newly observed value — but they fire for every
key whose ValueLog is held open on that node (opened via `get`, via `add`, or
eagerly by a Collaborator's `newKeyAdded`), not only for keys previously
fetched via `get`.  The hypotheses say only that `key`'s ValueLog is open
(present in `keyDbs`, named by the `{dbName}::{key}` protocol) and up to date
except for the incoming fresh entry. -/
theorem value_update_event_topic (st : RepoState) (k h v : String) (db : DatabaseM)
    (hget : mapGet st.keyDbs k = some db)
    (hname : db.dbName = valueLogName st.dbName k)
    (hseen : ∀ e ∈ (lookupLog st.logs db.dbName).getD [], e.1 ∈ db.entriesSeen)
    (hfresh : h ∉ db.entriesSeen) :
    (valueMerge st k h v).events = st.events ++ [(valueLogName st.dbName k, v)] := by
  simp only [valueMerge, hget]
  rw [lookupLog_appendLog_self]
  simp only [Option.getD_some, updateDatabaseM, List.reverse_append,
    List.reverse_singleton, List.singleton_append]
  rw [processEntries_new_head hfresh
    (fun e he => hseen e (List.mem_reverse.mp he))]
  simp [hname]

/-- Witness for C7's amended statement: the Collaborator's replicated log for
"k" receives a merged entry and the event goes out under topic `db::k`. -/
theorem value_update_event_topic_witness :
    (valueMerge (runOps (initState "db" true) [Op.indexMerge "h1" "k"]) "k" "h2" "v").events
      = (runOps (initState "db" true) [Op.indexMerge "h1" "k"]).events
          ++ [(valueLogName
                (runOps (initState "db" true) [Op.indexMerge "h1" "k"]).dbName "k", "v")] :=
  value_update_event_topic (runOps (initState "db" true) [Op.indexMerge "h1" "k"])
    "k" "h2" "v" ⟨"db::k", [], false⟩ (by decide) (by decide) (by decide) (by decide)

/-- C8: `connectToProvider` never issues a dial to the node's own peer
identity, and never issues a dial to a peer with at least one existing
connection: whenever the provider id equals self or the connection list is
non-empty, the function returns without reaching the dial branch. -/
theorem connectToProvider_skips_self_and_connected (valid : Bool)
    (pid selfPeer : String) (n : Nat) (h : pid = selfPeer ∨ 0 < n) :
    ConnectionManager.connectToProvider valid pid selfPeer n
      ≠ ConnectionManager.DialAction.dialed := by
  intro hdial
  unfold ConnectionManager.connectToProvider at hdial
  split_ifs at hdial
  simp_all

/-- Witness for C8: dialing self is skipped; dialing an already-connected
peer is skipped. -/
theorem connectToProvider_skips_self_and_connected_witness :
    ConnectionManager.connectToProvider true "peerA" "peerA" 0
        ≠ ConnectionManager.DialAction.dialed ∧
    ConnectionManager.connectToProvider true "peerB" "peerA" 3
        ≠ ConnectionManager.DialAction.dialed :=
  ⟨connectToProvider_skips_self_and_connected true "peerA" "peerA" 0 (Or.inl rfl),
   connectToProvider_skips_self_and_connected true "peerB" "peerA" 3
     (Or.inr (by decide))⟩

/-- C10: `add` for an unknown key is not atomic on error.  The key enters the
local set before the KeyIndexLog append is awaited, so when that append
throws, the error propagates to the caller while the key stays in the set:
`getAllKeys()` now includes it and a later `get(key)` no longer raises
KeyNotFound (it resolves the ValueLog and returns the, possibly empty, value
list). -/
theorem add_unknown_key_not_atomic_on_error (st : RepoState) (k v : String)
    (e : DbError) (hk : k ∉ st.keys) :
    (addF st k v (.error e) (.ok ())).1 = .error e ∧
    (addF st k v (.error e) (.ok ())).2.keys = st.keys ++ [k] ∧
    k ∈ getAllKeys (addF st k v (.error e) (.ok ())).2 ∧
    (get (addF st k v (.error e) (.ok ())).2 k).1 ≠ .error (.keyNotFound k) := by
  have h1 : addF st k v (.error e) (.ok ())
      = (.error e, { st with keys := st.keys ++ [k] }) := by
    simp [addF, hk]
  refine ⟨by rw [h1], by rw [h1], ?_, ?_⟩
  · rw [h1]
    simp [getAllKeys]
  · rw [h1]
    simp [get, show k ∈ st.keys ++ [k] by simp]

/-- Witness for C10: concrete failing index append on a fresh node. -/
theorem add_unknown_key_not_atomic_on_error_witness :
    (addF (initState "db" false) "k" "v" (.error (.store "boom")) (.ok ())).1
        = .error (.store "boom") ∧
    (addF (initState "db" false) "k" "v" (.error (.store "boom")) (.ok ())).2.keys
        = ["k"] ∧
    "k" ∈ getAllKeys (addF (initState "db" false) "k" "v"
        (.error (.store "boom")) (.ok ())).2 ∧
    (get (addF (initState "db" false) "k" "v"
        (.error (.store "boom")) (.ok ())).2 "k").1 ≠ .error (.keyNotFound "k") :=
  have h := add_unknown_key_not_atomic_on_error (initState "db" false) "k" "v"
    (.store "boom") (by decide)
  ⟨h.1, h.2.1, h.2.2.1, h.2.2.2⟩

end AstraDb
